import Mathlib

/-
Shallow embedding of the tree-growth core of `src/src/models/tree/build_tree.h`
(namespace `legateboost`): the binary-tree index arithmetic, the histogram
node selector, the histogram-required predicate, the leaf-value formula and
the gradient-pair algebra.  C++ `double` values are embedded as exact
rationals; C++ `int` is embedded as unbounded `Int`, with the truncating
semantics of C++ integer division rendered by `Int.tdiv`.
-/

namespace legateboost

/-- Source: `inline const double eps = 1e-5;` (added to the hessian to
prevent division by zero). -/
def eps : ℚ := 1 / 100000

namespace BinaryTree

/-- Source: `static int Parent(int i) { return (i - 1) / 2; }` — C++ `/`
on `int` truncates toward zero, which is `Int.tdiv`. -/
def Parent (i : Int) : Int := (i - 1).tdiv 2

/-- Source: `static int LeftChild(int i) { return 2 * i + 1; }` -/
def LeftChild (i : Int) : Int := 2 * i + 1

/-- Source: `static int RightChild(int i) { return 2 * i + 2; }` -/
def RightChild (i : Int) : Int := 2 * i + 2

/-- Source: `static int LevelBegin(int level) { return (1 << level) - 1; }` -/
def LevelBegin (level : Nat) : Int := 2 ^ level - 1

/-- Source: `static int NodesInLevel(int level) { return 1 << level; }` -/
def NodesInLevel (level : Nat) : Int := 2 ^ level

end BinaryTree

/-- The `legate::Buffer<double, 2>` of node hessians: a two-axis table of
doubles, indexed as `node_hessians[{node, column}]`; only column 0 is read
by the code under study. -/
def NodeHessians : Type := Int → Int → ℚ

/-- Source: `SelectHistogramNode(int parent, legate::Buffer<double, 2>
node_hessians)` — returns `{left_child, right_child}` when the left child
has strictly smaller hessian, else `{right_child, left_child}`. -/
def SelectHistogramNode (parent : Int) (node_hessians : NodeHessians) :
    Int × Int :=
  let left_child := BinaryTree.LeftChild parent
  let right_child := BinaryTree.RightChild parent
  if node_hessians left_child 0 < node_hessians right_child 0 then
    (left_child, right_child)
  else
    (right_child, left_child)

/-- Source: `ComputeHistogramBin(int node_id, int depth,
legate::Buffer<double, 2> node_hessians)` — root is always required,
negative identifiers are never required, otherwise the node is required
iff it is its parent's `histogram_node`. -/
def ComputeHistogramBin (node_id : Int) (depth : Int)
    (node_hessians : NodeHessians) : Bool :=
  if node_id = 0 then true
  else if node_id < 0 then false
  else
    let parent := BinaryTree.Parent node_id
    let hs := SelectHistogramNode parent node_hessians
    hs.1 == node_id

/-- Source: `CalculateLeafValue(double G, double H, double alpha)
{ return -G / (H + alpha); }` -/
def CalculateLeafValue (G H alpha : ℚ) : ℚ := -G / (H + alpha)

/-- Source: `struct GPair { double grad = 0.0; double hess = 0.0; ... }` -/
structure GPair where
  grad : ℚ := 0
  hess : ℚ := 0

/-- Source: `GPair operator+(const GPair& a, const GPair& b)` —
componentwise addition. -/
def GPair.addOp (a b : GPair) : GPair := ⟨a.grad + b.grad, a.hess + b.hess⟩

/-- Source: `GPair operator-(const GPair& a, const GPair& b)` —
componentwise subtraction. -/
def GPair.subOp (a b : GPair) : GPair := ⟨a.grad - b.grad, a.hess - b.hess⟩

instance : Add GPair := ⟨GPair.addOp⟩

instance : Sub GPair := ⟨GPair.subOp⟩

/-- A hessian table with every entry equal to 4.0, so both children of any
parent have exactly equal hessian sums. -/
def tieTable : NodeHessians := fun _ _ => 4

/-- A hessian table with hessian 3.0 at node 1 and 5.0 elsewhere: the
children of the root have hessians H_left = 3.0, H_right = 5.0. -/
def table35 : NodeHessians := fun i _ => if i = 1 then 3 else 5

/-- An all-zero hessian table, used to instantiate universally quantified
statements at a concrete input. -/
def zeroTable : NodeHessians := fun _ _ => 0

/- ------------------------------------------------------------------ -/
/- Helper lemmas (shared by several claims).                           -/
/- ------------------------------------------------------------------ -/

theorem tdiv_two_mul (p : Int) (hp : 0 ≤ p) : (2 * p).tdiv 2 = p := by
  rw [Int.tdiv_eq_ediv (by omega) (by omega)]
  omega

theorem tdiv_two_mul_add_one (p : Int) (hp : 0 ≤ p) :
    (2 * p + 1).tdiv 2 = p := by
  rw [Int.tdiv_eq_ediv (by omega) (by omega)]
  omega

theorem parent_left_child (p : Int) (hp : 0 ≤ p) :
    BinaryTree.Parent (BinaryTree.LeftChild p) = p := by
  show (2 * p + 1 - 1).tdiv 2 = p
  have h : 2 * p + 1 - 1 = 2 * p := by ring
  rw [h]
  exact tdiv_two_mul p hp

theorem parent_right_child (p : Int) (hp : 0 ≤ p) :
    BinaryTree.Parent (BinaryTree.RightChild p) = p := by
  show (2 * p + 2 - 1).tdiv 2 = p
  have h : 2 * p + 2 - 1 = 2 * p + 1 := by ring
  rw [h]
  exact tdiv_two_mul_add_one p hp

theorem compute_of_pos (n d : Int) (t : NodeHessians) (hn : 0 < n) :
    ComputeHistogramBin n d t
      = ((SelectHistogramNode (BinaryTree.Parent n) t).1 == n) := by
  unfold ComputeHistogramBin
  rw [if_neg (by omega), if_neg (by omega)]

/- ------------------------------------------------------------------ -/
/- Claim theorems.                                                     -/
/- ------------------------------------------------------------------ -/

/-- C1 counterexample: with every hessian equal to 4.0 the two children of
the root have exactly equal hessian sums, yet `SelectHistogramNode` returns
(right child, left child), not (left child, right child) as the claim
states. -/
theorem select_tie_counterexample :
    tieTable (BinaryTree.LeftChild 0) 0 = tieTable (BinaryTree.RightChild 0) 0 ∧
    SelectHistogramNode 0 tieTable = (BinaryTree.RightChild 0, BinaryTree.LeftChild 0) ∧
    SelectHistogramNode 0 tieTable ≠ (BinaryTree.LeftChild 0, BinaryTree.RightChild 0) := by
  refine ⟨rfl, ?_, ?_⟩ <;> decide

/-- C1 (amended): for every parent node and hessian table in which the
parent's two children have exactly equal hessian sums, `SelectHistogramNode`
returns (right child, left child): on a tie, the RIGHT child is chosen as
`histogram_node` (the strict `<` comparison fails, so the second return
statement runs). -/
theorem select_tie_right_first (parent : Int) (t : NodeHessians)
    (h : t (BinaryTree.LeftChild parent) 0 = t (BinaryTree.RightChild parent) 0) :
    SelectHistogramNode parent t
      = (BinaryTree.RightChild parent, BinaryTree.LeftChild parent) := by
  simp only [SelectHistogramNode]
  rw [h]
  simp

theorem select_tie_right_first_witness :
    tieTable (BinaryTree.LeftChild 0) 0 = tieTable (BinaryTree.RightChild 0) 0 ∧
    SelectHistogramNode 0 tieTable
      = (BinaryTree.RightChild 0, BinaryTree.LeftChild 0) :=
  ⟨rfl, select_tie_right_first 0 tieTable rfl⟩

/-- C2: whenever the two children's hessian sums differ,
`SelectHistogramNode` returns as `histogram_node` (first component) the
child with the strictly smaller hessian sum and as `subtract_node` (second
component) the other child. -/
theorem select_smaller_child (parent : Int) (t : NodeHessians)
    (h : t (BinaryTree.LeftChild parent) 0 ≠ t (BinaryTree.RightChild parent) 0) :
    t (SelectHistogramNode parent t).1 0 < t (SelectHistogramNode parent t).2 0 ∧
    (SelectHistogramNode parent t
        = (BinaryTree.LeftChild parent, BinaryTree.RightChild parent) ∨
      SelectHistogramNode parent t
        = (BinaryTree.RightChild parent, BinaryTree.LeftChild parent)) := by
  unfold SelectHistogramNode
  by_cases hlt : t (BinaryTree.LeftChild parent) 0 < t (BinaryTree.RightChild parent) 0
  · rw [if_pos hlt]
    exact ⟨hlt, Or.inl rfl⟩
  · have hgt : t (BinaryTree.RightChild parent) 0 < t (BinaryTree.LeftChild parent) 0 :=
      lt_of_le_of_ne (not_lt.mp hlt) (Ne.symm h)
    rw [if_neg hlt]
    exact ⟨hgt, Or.inr rfl⟩

theorem select_smaller_child_witness :
    table35 (BinaryTree.LeftChild 0) 0 ≠ table35 (BinaryTree.RightChild 0) 0 ∧
    SelectHistogramNode 0 table35
      = (BinaryTree.LeftChild 0, BinaryTree.RightChild 0) :=
  ⟨by decide,
    ((select_smaller_child 0 table35 (by decide)).2).resolve_right (by decide)⟩

/-- C3: for every parent node p ≥ 0, every depth and every hessian table,
exactly one of `ComputeHistogramBin` on the left child and
`ComputeHistogramBin` on the right child is true. -/
theorem children_exactly_one_required (p : Int) (hp : 0 ≤ p) (depth : Int)
    (t : NodeHessians) :
    Xor' (ComputeHistogramBin (BinaryTree.LeftChild p) depth t = true)
      (ComputeHistogramBin (BinaryTree.RightChild p) depth t = true) := by
  have hL : ComputeHistogramBin (BinaryTree.LeftChild p) depth t
      = ((SelectHistogramNode p t).1 == BinaryTree.LeftChild p) := by
    rw [compute_of_pos _ depth t (by show 0 < 2 * p + 1; omega), parent_left_child p hp]
  have hR : ComputeHistogramBin (BinaryTree.RightChild p) depth t
      = ((SelectHistogramNode p t).1 == BinaryTree.RightChild p) := by
    rw [compute_of_pos _ depth t (by show 0 < 2 * p + 2; omega), parent_right_child p hp]
  have hne : BinaryTree.LeftChild p ≠ BinaryTree.RightChild p := by
    show 2 * p + 1 ≠ 2 * p + 2
    omega
  rw [hL, hR]
  unfold SelectHistogramNode
  by_cases hlt : t (BinaryTree.LeftChild p) 0 < t (BinaryTree.RightChild p) 0
  · rw [if_pos hlt]
    refine Or.inl ⟨by simp, by simp [hne]⟩
  · rw [if_neg hlt]
    refine Or.inr ⟨by simp, by simp [Ne.symm hne]⟩

theorem children_exactly_one_required_witness :
    (0 : Int) ≤ 0 ∧
    Xor' (ComputeHistogramBin (BinaryTree.LeftChild 0) 0 zeroTable = true)
      (ComputeHistogramBin (BinaryTree.RightChild 0) 0 zeroTable = true) :=
  ⟨le_refl 0, children_exactly_one_required 0 (le_refl 0) 0 zeroTable⟩

/-- C4: for every depth and hessian table, `ComputeHistogramBin` returns
true at node identifier 0 (the root is always required) and false at every
negative node identifier (non-existent nodes are not required, no error is
raised). -/
theorem root_required_negative_not_required (depth : Int) (t : NodeHessians) :
    ComputeHistogramBin 0 depth t = true ∧
    ∀ n : Int, n < 0 → ComputeHistogramBin n depth t = false := by
  constructor
  · rfl
  · intro n hn
    unfold ComputeHistogramBin
    rw [if_neg (by omega), if_pos hn]

theorem root_required_negative_not_required_witness :
    ComputeHistogramBin 0 0 zeroTable = true ∧
    ((-1 : Int) < 0 ∧ ComputeHistogramBin (-1) 0 zeroTable = false) :=
  ⟨(root_required_negative_not_required 0 zeroTable).1,
    by decide,
    (root_required_negative_not_required 0 zeroTable).2 (-1) (by decide)⟩

/-- C5: `CalculateLeafValue G H alpha` equals `-G / (H + alpha)` for all
inputs, and in particular `CalculateLeafValue 10 4 1 = -2`. -/
theorem leaf_value_formula :
    (∀ G H alpha : ℚ, CalculateLeafValue G H alpha = -G / (H + alpha)) ∧
    CalculateLeafValue 10 4 1 = -2 := by
  constructor
  · intro G H alpha
    rfl
  · unfold CalculateLeafValue
    norm_num

/-- C7: for every i > 0 within the int range, `Parent (LeftChild i) = i`
and `Parent (RightChild i) = i`, with `Parent` computed by truncating
integer division of `i - 1` by 2. -/
theorem parent_child_roundtrip (i : Int) (hi : 0 < i)
    (hof : 2 * i + 2 < 2 ^ 31) :
    BinaryTree.Parent (BinaryTree.LeftChild i) = i ∧
    BinaryTree.Parent (BinaryTree.RightChild i) = i :=
  ⟨parent_left_child i (le_of_lt hi), parent_right_child i (le_of_lt hi)⟩

theorem parent_child_roundtrip_witness :
    (0 : Int) < 3 ∧ 2 * 3 + 2 < (2 : Int) ^ 31 ∧
    (BinaryTree.Parent (BinaryTree.LeftChild 3) = 3 ∧
      BinaryTree.Parent (BinaryTree.RightChild 3) = 3) :=
  ⟨by decide, by decide, parent_child_roundtrip 3 (by decide) (by decide)⟩

/-- C8: for every level whose successor still fits the int range,
`LevelBegin (level + 1) = LevelBegin level + NodesInLevel level`, in exact
integer arithmetic. -/
theorem level_begin_recurrence (level : Nat)
    (hof : (2 : Int) ^ (level + 1) < 2 ^ 31) :
    BinaryTree.LevelBegin (level + 1)
      = BinaryTree.LevelBegin level + BinaryTree.NodesInLevel level := by
  unfold BinaryTree.LevelBegin BinaryTree.NodesInLevel
  rw [pow_succ]
  ring

theorem level_begin_recurrence_witness :
    (2 : Int) ^ (5 + 1) < 2 ^ 31 ∧
    BinaryTree.LevelBegin (5 + 1)
      = BinaryTree.LevelBegin 5 + BinaryTree.NodesInLevel 5 :=
  ⟨by decide, level_begin_recurrence 5 (by decide)⟩

/-- C9: gradient pairs satisfy the round-trip identity `(a + b) - b = a`
and commutativity `a + b = b + a` under componentwise addition and
subtraction. -/
theorem gpair_group_laws (a b : GPair) : a + b - b = a ∧ a + b = b + a := by
  cases a with
  | mk ag ah =>
    cases b with
    | mk bg bh =>
      constructor
      · show GPair.subOp (GPair.addOp ⟨ag, ah⟩ ⟨bg, bh⟩) ⟨bg, bh⟩ = ⟨ag, ah⟩
        unfold GPair.addOp GPair.subOp
        simp
      · show GPair.addOp ⟨ag, ah⟩ ⟨bg, bh⟩ = GPair.addOp ⟨bg, bh⟩ ⟨ag, ah⟩
        unfold GPair.addOp
        simp [add_comm]

/-- C10: `ComputeHistogramBin` never reads its depth argument: its result
is identical for any two depths at the same node and hessian table. -/
theorem compute_depth_irrelevant (node_id d1 d2 : Int) (t : NodeHessians) :
    ComputeHistogramBin node_id d1 t = ComputeHistogramBin node_id d2 t := rfl

end legateboost
